import Mathlib

/-
Verification of the annotation-to-mask conversion and record-encoding
pipeline of tf_image_segmentation/recipes/mscoco/data_coco.py.

The embedding models:
  - the rasterizer command coco_json_to_segmentation (lines 110-142):
    grouping of annotations by image id, per-image uint8 label-mask
    construction (lines 126-131), mask-file persistence (lines 133-134),
    and the two diagnostic branches (lines 135-142);
  - the pairing command coco_segmentation_to_tfrecord (lines 145-157);
  - the record encoder write_image_annotation_pairs_to_tfrecord, whose
    source file (tf_image_segmentation/utils/tf_records.py) is not part
    of this tree; it is modelled from the specification.

External collaborators (pycocotools COCO/annToMask/loadImgs, PIL, the
filesystem) are parameters of the embedded functions, exactly at the
boundaries where the source calls them.
-/

namespace DataCoco

/-- One COCO object annotation as used by data_coco.py: the fields
read by the code are image_id and category_id; ann_id models the 'id'
field and distinguishes annotations with identical image/category. -/
structure Ann where
  image_id : Nat
  category_id : Nat
  ann_id : Nat
deriving DecidableEq

/-- Image metadata record returned by coco.loadImgs: the code reads
'height', 'width' and 'file_name'. -/
structure ImgMeta where
  height : Nat
  width : Nat
  file_name : String
deriving DecidableEq

/-- The per-annotation array returned by coco.annToMask, as a function
from (row, column) to the stored value; the code only tests it with
mask > 0 (line 130). -/
def Coverage : Type := Nat → Nat → Nat

/-- coco.annToMask as an external parameter: pycocotools may raise on
malformed geometry, hence the Except. -/
def AnnToMask : Type := Ann → Except String Coverage

/-- The per-image label array MASK (a 2-D uint8 numpy array in the
code), as a function from (row, column) to the stored byte. -/
def Mask : Type := Nat → Nat → Nat

/-- The all-zeros array np.zeros((h, w), dtype=np.uint8) of line 126. -/
def zeroMask : Mask := fun _ _ => 0

/-- One iteration of the loop of lines 128-131: call annToMask (which
may fail), then overwrite MASK with the annotation's category id at
every pixel where the coverage is positive.  The store is into a uint8
array, so the written value is category_id % 256. -/
def annStep (attm : AnnToMask) (MASK : Mask) (a : Ann) : Except String Mask :=
  match attm a with
  | .error e => .error e
  | .ok mask => .ok (fun y x => if mask y x > 0 then a.category_id % 256 else MASK y x)

/-- Sequential fold of a fallible step over a list, the shape of the
Python for-loop: the first raised exception aborts the whole loop. -/
def foldE (f : Mask → Ann → Except String Mask) : Mask → List Ann → Except String Mask
  | M, [] => .ok M
  | M, a :: l =>
    match f M a with
    | .error e => .error e
    | .ok M2 => foldE f M2 l

/-- The label mask built for one image by lines 126-131: start from the
zero array and apply every annotation of the image in list order. -/
def buildMask (attm : AnnToMask) (anns : List Ann) : Except String Mask :=
  foldE (annStep attm) zeroMask anns

/-- Pure version of the mask fold, for a family of coverage functions
cov known to agree with annToMask. -/
def maskFold (cov : Ann → Coverage) (anns : List Ann) (M0 : Mask) : Mask :=
  anns.foldl (fun M a => fun y x => if cov a y x > 0 then a.category_id % 256 else M y x) M0

/-- The last annotation in the list covering pixel (y, x) - the one
whose write survives in MASK. -/
def lastCov (cov : Ann → Coverage) (anns : List Ann) (y x : Nat) : Option Ann :=
  anns.reverse.find? (fun a => decide (0 < cov a y x))

theorem buildMask_eq_fold {attm : AnnToMask} {cov : Ann → Coverage} :
    ∀ {anns : List Ann}, (∀ a ∈ anns, attm a = .ok (cov a)) →
      ∀ M0, foldE (annStep attm) M0 anns = .ok (maskFold cov anns M0) := by
  intro anns
  induction anns with
  | nil => intro _ M0; rfl
  | cons a l ih =>
    intro h M0
    have ha : attm a = .ok (cov a) := h a (List.mem_cons_self a l)
    simp only [foldE, annStep, ha]
    exact ih (fun b hb => h b (List.mem_cons_of_mem a hb)) _

theorem maskFold_eq (cov : Ann → Coverage) (anns : List Ann) (M0 : Mask) (y x : Nat) :
    maskFold cov anns M0 y x =
      match lastCov cov anns y x with
      | some a => a.category_id % 256
      | none => M0 y x := by
  induction anns using List.reverseRecOn with
  | nil => rfl
  | append_singleton l a ih =>
    unfold maskFold lastCov at *
    rw [List.foldl_append, List.reverse_append]
    by_cases hc : 0 < cov a y x
    · simp only [List.foldl_cons, List.foldl_nil, List.reverse_cons, List.reverse_nil,
        List.nil_append, List.singleton_append]
      rw [List.find?_cons_of_pos _ (by simpa using hc)]
      simp [hc]
    · simp only [List.foldl_cons, List.foldl_nil, List.reverse_cons, List.reverse_nil,
        List.nil_append, List.singleton_append]
      rw [List.find?_cons_of_neg _ (by simpa using hc)]
      simp only [if_neg hc]
      exact ih

/-- Value of a fallible mask computation at a pixel (sentinel 1000,
not a byte, when the computation raised). -/
def maskAt (r : Except String Mask) (y x : Nat) : Nat :=
  match r with
  | .ok M => M y x
  | .error _ => 1000

theorem pairwise_same_or_rel {R : Ann → Ann → Prop}
    (hsym : ∀ a b, R a b → R b a) :
    ∀ {l : List Ann}, l.Pairwise R → ∀ {a b : Ann}, a ∈ l → b ∈ l → a = b ∨ R a b := by
  intro l hl
  induction hl with
  | nil => intro a b ha _; cases ha
  | cons hx _ ih =>
    intro a b ha hb
    rcases List.mem_cons.mp ha with rfl | ha2
    · rcases List.mem_cons.mp hb with rfl | hb2
      · exact Or.inl rfl
      · exact Or.inr (hx b hb2)
    · rcases List.mem_cons.mp hb with rfl | hb2
      · exact Or.inr (hsym _ _ (hx a ha2))
      · exact ih ha2 hb2

/-- C1 (amended): over pairwise non-overlapping annotations whose
category ids lie in 1..255, the rasterized mask holds category id C at
exactly the pixels covered by the annotation of category C, and 0 at
pixels covered by no annotation. -/
theorem c1_nonoverlapping_exact
    (attm : AnnToMask) (cov : Ann → Coverage) (anns : List Ann) (M : Mask)
    (hcov : ∀ a ∈ anns, attm a = .ok (cov a))
    (hdisj : anns.Pairwise (fun a b => ∀ y x, ¬(0 < cov a y x ∧ 0 < cov b y x)))
    (hrange : ∀ a ∈ anns, 0 < a.category_id ∧ a.category_id < 256)
    (hM : buildMask attm anns = .ok M) :
    ∀ y x, (∀ a ∈ anns, 0 < cov a y x → M y x = a.category_id) ∧
           ((∀ a ∈ anns, ¬ 0 < cov a y x) → M y x = 0) := by
  have hfold := buildMask_eq_fold hcov zeroMask
  rw [show buildMask attm anns = foldE (annStep attm) zeroMask anns from rfl, hfold] at hM
  have hMe : M = maskFold cov anns zeroMask := by
    exact (Except.ok.injEq _ _).mp hM.symm
  subst hMe
  intro y x
  constructor
  · intro a ha hc
    rw [maskFold_eq]
    cases hf : lastCov cov anns y x with
    | none =>
      exfalso
      have := (List.find?_eq_none.mp hf) a (List.mem_reverse.mpr ha)
      simp only [decide_eq_true_eq] at this
      exact this hc
    | some b =>
      have hpb : 0 < cov b y x := by
        have := List.find?_some hf
        simpa using this
      have hbm : b ∈ anns := List.mem_reverse.mp (List.mem_of_find?_eq_some hf)
      have hab : a = b := by
        rcases pairwise_same_or_rel
          (R := fun a b => ∀ y x, ¬(0 < cov a y x ∧ 0 < cov b y x))
          (fun a b h y x hc2 => h y x ⟨hc2.2, hc2.1⟩) hdisj ha hbm with h | h
        · exact h
        · exact absurd ⟨hc, hpb⟩ (h y x)
      subst hab
      exact Nat.mod_eq_of_lt (hrange a ha).2
  · intro hnone
    rw [maskFold_eq]
    have : lastCov cov anns y x = none := by
      apply List.find?_eq_none.mpr
      intro b hb
      simp only [decide_eq_true_eq]
      exact hnone b (List.mem_reverse.mp hb)
    rw [this]
    rfl

def cov1w : Ann → Coverage := fun a => fun y _ => if y = a.ann_id then 1 else 0

def attm1w : AnnToMask := fun a => .ok (cov1w a)

def ann1wa : Ann := ⟨7, 2, 0⟩

def ann1wb : Ann := ⟨7, 9, 1⟩

theorem cov1w_pos {a : Ann} {y x : Nat} : 0 < cov1w a y x ↔ y = a.ann_id := by
  unfold cov1w
  split
  · simp [*]
  · simp [*]

/-- C1 witness: two disjoint annotations (categories 2 and 9, covering
rows 0 and 1); the mask reads 2 on row 0 and 0 on the uncovered row 5. -/
theorem c1_witness :
    maskAt (buildMask attm1w [ann1wa, ann1wb]) 0 0 = 2 ∧
    maskAt (buildMask attm1w [ann1wa, ann1wb]) 5 5 = 0 := by
  have hdisj : List.Pairwise
      (fun a b => ∀ y x, ¬(0 < cov1w a y x ∧ 0 < cov1w b y x)) [ann1wa, ann1wb] := by
    refine List.Pairwise.cons ?_ (List.Pairwise.cons (fun b hb => by cases hb) List.Pairwise.nil)
    intro b hb y x hc
    rcases List.mem_cons.mp hb with rfl | hb2
    · have h1 := cov1w_pos.mp hc.1
      have h2 := cov1w_pos.mp hc.2
      rw [h1] at h2
      exact absurd h2 (by decide)
    · cases hb2
  have h := c1_nonoverlapping_exact attm1w cov1w [ann1wa, ann1wb]
    (maskFold cov1w [ann1wa, ann1wb] zeroMask)
    (fun a _ => rfl)
    hdisj
    (by intro a ha
        rcases List.mem_cons.mp ha with rfl | h2
        · exact ⟨by decide, by decide⟩
        · rcases List.mem_cons.mp h2 with rfl | h3
          · exact ⟨by decide, by decide⟩
          · cases h3)
    (buildMask_eq_fold (fun a _ => rfl) zeroMask)
  constructor
  · have h1 := (h 0 0).1 ann1wa (List.mem_cons_self _ _) (by decide)
    simpa [maskAt] using h1
  · have h2 := (h 5 5).2 ?_
    · simpa [maskAt] using h2
    · intro a ha
      rcases List.mem_cons.mp ha with rfl | h2
      · decide
      · rcases List.mem_cons.mp h2 with rfl | h3
        · decide
        · cases h3

def cov1c : Ann → Coverage := fun _ => fun _ _ => 1

def attm1c : AnnToMask := fun a => .ok (cov1c a)

def ann1c : Ann := ⟨1, 256, 1⟩

/-- C1 counterexample: a single (hence non-overlapping) annotation with
category id 256 covers pixel (0,0), yet the stored mask value there is
0, not the annotation's category id 256: the uint8 store wraps. -/
theorem c1_counterexample :
    0 < cov1c ann1c 0 0 ∧
    maskAt (buildMask attm1c [ann1c]) 0 0 = 0 ∧
    maskAt (buildMask attm1c [ann1c]) 0 0 ≠ ann1c.category_id := by
  refine ⟨by decide, rfl, by decide⟩

/-- C2 (amended): with two overlapping annotations processed in order
[A then B], a pixel covered by both reads B's category id reduced mod
256 (equal to B's category id whenever that id is below 256); the
last-processed annotation wins, with no other compositing. -/
theorem c2_overlap_last_writer
    (attm : AnnToMask) (cov : Ann → Coverage) (A B : Ann) (M : Mask) (y x : Nat)
    (hcov : ∀ a ∈ [A, B], attm a = .ok (cov a))
    (hM : buildMask attm [A, B] = .ok M)
    (_hA : 0 < cov A y x) (hB : 0 < cov B y x) :
    M y x = B.category_id % 256 := by
  have hfold := buildMask_eq_fold hcov zeroMask
  rw [show buildMask attm [A, B] = foldE (annStep attm) zeroMask [A, B] from rfl, hfold] at hM
  have hMe : M = maskFold cov [A, B] zeroMask := (Except.ok.injEq _ _).mp hM.symm
  subst hMe
  rw [maskFold_eq]
  have : lastCov cov [A, B] y x = some B := by
    unfold lastCov
    simp only [List.reverse_cons, List.reverse_nil, List.nil_append, List.singleton_append]
    exact List.find?_cons_of_pos _ (by simpa using hB)
  rw [this]

def cov2w : Ann → Coverage := fun _ => fun _ _ => 1

def attm2w : AnnToMask := fun a => .ok (cov2w a)

def ann2wa : Ann := ⟨1, 4, 1⟩

def ann2wb : Ann := ⟨1, 300, 2⟩

/-- C2 witness: both annotations cover pixel (0,0); the later one has
category id 300, and the mask reads 300 % 256 = 44. -/
theorem c2_witness : maskAt (buildMask attm2w [ann2wa, ann2wb]) 0 0 = 44 := by
  have h := c2_overlap_last_writer attm2w cov2w ann2wa ann2wb
    (maskFold cov2w [ann2wa, ann2wb] zeroMask) 0 0
    (fun a _ => rfl)
    (buildMask_eq_fold (fun a _ => rfl) zeroMask)
    (by decide) (by decide)
  simpa [maskAt] using h

def cov2c : Ann → Coverage := fun _ => fun _ _ => 1

def attm2c : AnnToMask := fun a => .ok (cov2c a)

def ann2ca : Ann := ⟨1, 3, 1⟩

def ann2cb : Ann := ⟨1, 300, 2⟩

/-- C2 counterexample: annotations A (category 3) and B (category 300)
both cover pixel (0,0) and are processed in order [A then B]; the mask
reads 44 there, not B's category id 300. -/
theorem c2_counterexample :
    0 < cov2c ann2ca 0 0 ∧ 0 < cov2c ann2cb 0 0 ∧
    maskAt (buildMask attm2c [ann2ca, ann2cb]) 0 0 = 44 ∧
    maskAt (buildMask attm2c [ann2ca, ann2cb]) 0 0 ≠ ann2cb.category_id := by
  refine ⟨by decide, by decide, rfl, by decide⟩

/-- C10: the label array is uint8, so the value stored at a pixel is
the last covering annotation's category id reduced mod 256; every
stored value is below 256, and a category id of 256 or more is wrapped
rather than stored exactly. -/
theorem c10_uint8_mod256
    (attm : AnnToMask) (cov : Ann → Coverage) (anns : List Ann) (M : Mask)
    (hcov : ∀ a ∈ anns, attm a = .ok (cov a))
    (hM : buildMask attm anns = .ok M) :
    (∀ y x, M y x < 256) ∧
    (∀ a y x, lastCov cov anns y x = some a → M y x = a.category_id % 256) ∧
    (∀ a y x, lastCov cov anns y x = some a → 256 ≤ a.category_id → M y x ≠ a.category_id) := by
  have hfold := buildMask_eq_fold hcov zeroMask
  rw [show buildMask attm anns = foldE (annStep attm) zeroMask anns from rfl, hfold] at hM
  have hMe : M = maskFold cov anns zeroMask := (Except.ok.injEq _ _).mp hM.symm
  subst hMe
  refine ⟨?_, ?_, ?_⟩
  · intro y x
    rw [maskFold_eq]
    cases lastCov cov anns y x with
    | some a => exact Nat.mod_lt _ (by omega)
    | none => exact (show (0 : Nat) < 256 by omega)
  · intro a y x hf
    rw [maskFold_eq, hf]
  · intro a y x hf hge
    rw [maskFold_eq, hf]
    show a.category_id % 256 ≠ a.category_id
    have : a.category_id % 256 < 256 := Nat.mod_lt _ (by omega)
    omega

def cov10w : Ann → Coverage := fun _ => fun _ _ => 1

def attm10w : AnnToMask := fun a => .ok (cov10w a)

def ann10w : Ann := ⟨1, 300, 1⟩

/-- C10 witness: an annotation of category id 300 covering pixel (0,0)
is stored as 300 % 256 = 44, which differs from 300. -/
theorem c10_witness :
    maskAt (buildMask attm10w [ann10w]) 0 0 = 44 ∧
    maskAt (buildMask attm10w [ann10w]) 0 0 ≠ 300 := by
  have h := c10_uint8_mod256 attm10w cov10w [ann10w]
    (maskFold cov10w [ann10w] zeroMask)
    (fun a _ => rfl)
    (buildMask_eq_fold (fun a _ => rfl) zeroMask)
  have hlast : lastCov cov10w [ann10w] 0 0 = some ann10w := by decide
  constructor
  · have := h.2.1 ann10w 0 0 hlast
    simpa [maskAt] using this
  · have := h.2.2 ann10w 0 0 hlast (by decide)
    simpa [maskAt, ann10w] using this

/-- A Python value appearing in the diagnostic prints of lines 135-142:
either a str or a list of str.  The code concatenates the function's
list-valued argument annotation_paths into a str message. -/
inductive PyVal where
  | str : String → PyVal
  | strlist : List String → PyVal

/-- Python binary + on these values: str+str and list+list concatenate;
mixing str and list raises TypeError. -/
def pyAdd : PyVal → PyVal → Except String PyVal
  | .str a, .str b => .ok (.str (a ++ b))
  | .strlist a, .strlist b => .ok (.strlist (a ++ b))
  | .str _, .strlist _ => .error "TypeError: cannot concatenate str and list objects"
  | .strlist _, .str _ => .error "TypeError: can only concatenate list (not str) to list"

/-- Left-associated chain of Python + starting from v, the shape of the
expressions inside the two print calls. -/
def pyConcat (v : PyVal) : List PyVal → Except String PyVal
  | [] => .ok v
  | w :: l =>
    match pyAdd v w with
    | .error e => .error e
    | .ok u => pyConcat u l

/-- The parsed annotation source coco.dataset, as far as the code
inspects it: which of the keys 'instances' and 'sentences' are present
(lines 115 and 135), and the annotation list under 'instances'. -/
structure CocoDataset where
  hasInstances : Bool
  hasSentences : Bool
  instances : List Ann

/-- The per-image annotation group imgToAnns built by lines 114-117: a
defaultdict filled by appending each annotation, in list order, under
its image_id; the group of key k is the order-preserving filter. -/
def imgGroup (anns : List Ann) (k : Nat) : List Ann :=
  anns.filter (fun a => a.image_id = k)

/-- os.path.join as used on line 134. -/
def pyJoin (d f : String) : String := d ++ "/" ++ f

/-- One persisted mask file (line 134): its path, the allocated array
dimensions and the label array written into it. -/
structure SaveEvent where
  path : String
  height : Nat
  width : Nat
  MASK : Mask

/-- Default SaveEvent, used only as a getD fallback. -/
def dfltEvent : SaveEvent := ⟨"", 0, 0, zeroMask⟩

/-- Lines 120-134, the body run for one image key: take the group's
first annotation, look its image_id up with coco.loadImgs (a missing
id raises), allocate the zero mask, fold the annotations, and save the
result under the source file name with the last four characters
dropped and '.png' appended. -/
def processImage (imgs : Nat → Option ImgMeta) (attm : AnnToMask) (anns : List Ann)
    (seg_mask_path : String) (k : Nat) : Except String SaveEvent :=
  match imgGroup anns k with
  | [] => .error "IndexError: list index out of range"
  | a :: t =>
    match imgs a.image_id with
    | none => .error "KeyError: image id not in imgs"
    | some img =>
      match buildMask attm (a :: t) with
      | .error e => .error e
      | .ok M =>
        .ok ⟨pyJoin seg_mask_path (img.file_name.dropRight 4 ++ ".png"),
             img.height, img.width, M⟩

/-- Sequential fallible map, the shape of a Python for-loop that
collects results: the first raised exception aborts the whole loop. -/
def mapE {α β : Type} (f : α → Except String β) : List α → Except String (List β)
  | [] => .ok []
  | a :: l =>
    match f a with
    | .error e => .error e
    | .ok b =>
      match mapE f l with
      | .error e => .error e
      | .ok bs => .ok (b :: bs)

/-- Lines 113-142 for one (seg_mask_path, annFile, image_path) triple:
if the dataset has an 'instances' key, rasterize every image of the
key enumeration ks (the order of imgToAnns.keys()); otherwise build
the diagnostic message, whose str + list concatenation raises.  The
string annotation_paths here is the list-valued function argument, not
the per-iteration annFile. -/
def convertOne (imgs : Nat → Option ImgMeta) (attm : AnnToMask)
    (annotation_paths : List String) (ds : CocoDataset)
    (seg_mask_path image_path : String) (ks : List Nat) :
    Except String (List SaveEvent) :=
  if ds.hasInstances then
    mapE (processImage imgs attm ds.instances seg_mask_path) ks
  else if ds.hasSentences then
    match pyConcat (.str "Skipping due to no instances in annotations,")
        [.str " sentences conversion not supported. Annotations: ",
         .strlist annotation_paths, .str " image_path: ", .str image_path] with
    | .error e => .error e
    | .ok _ => .ok []
  else
    match pyConcat (.str "Skipping due to no instances in annotations.")
        [.str " Annotations: ", .strlist annotation_paths,
         .str " image_path: ", .str image_path] with
    | .error e => .error e
    | .ok _ => .ok []

/-- Python zip over three lists, truncating to the shortest. -/
def pyZip3 {α β γ : Type} : List α → List β → List γ → List (α × β × γ)
  | a :: as, b :: bs, c :: cs => (a, b, c) :: pyZip3 as bs cs
  | _, _, _ => []

/-- The whole command coco_json_to_segmentation (lines 110-142).  The
external COCO library is abstracted: loadCoco parses an annotation
file into a dataset, imgsOf and attmOf are that file's loadImgs and
annToMask, and keyOrder is the unspecified enumeration order of the
keys of the imgToAnns dict. -/
def coco_json_to_segmentation
    (loadCoco : String → String → CocoDataset)
    (imgsOf : String → Nat → Option ImgMeta)
    (attmOf : String → AnnToMask)
    (keyOrder : List Ann → List Nat)
    (seg_mask_output_paths annotation_paths seg_mask_image_paths : List String) :
    Except String (List (List SaveEvent)) :=
  mapE (fun trip =>
      convertOne (imgsOf trip.2.1) (attmOf trip.2.1) annotation_paths
        (loadCoco trip.2.1 trip.2.2) trip.1 trip.2.2
        (keyOrder (loadCoco trip.2.1 trip.2.2).instances))
    (pyZip3 seg_mask_output_paths annotation_paths seg_mask_image_paths)

/-- Number of mask files saved by a run (0 when the run raised). -/
def numSaved (r : Except String (List SaveEvent)) : Nat :=
  match r with
  | .ok evs => evs.length
  | .error _ => 0

def loadCoco3 : String → String → CocoDataset := fun _ _ => ⟨false, true, []⟩

def imgsOf3 : String → Nat → Option ImgMeta := fun _ _ => none

def attmOf3 : String → AnnToMask := fun _ _ => .error "unused"

def keyOrder3 : List Ann → List Nat := fun _ => []

/-- C3: on an annotation source with no instance-style entries (here a
captions-style file, whose dataset has a 'sentences' key but no
'instances' key) the command does not skip-and-continue: building the
diagnostic concatenates the str message with the list-valued
annotation_paths argument, which raises TypeError and aborts the whole
run with zero mask files written. -/
theorem c3_no_instances_typeerror :
    coco_json_to_segmentation loadCoco3 imgsOf3 attmOf3 keyOrder3
        ["out"] ["captions.json"] ["imgdir"] =
      .error "TypeError: cannot concatenate str and list objects" := rfl

theorem mapE_ok_of_forall {α β : Type} {f : α → Except String β} {g : α → β} :
    ∀ {l : List α}, (∀ a ∈ l, f a = .ok (g a)) → mapE f l = .ok (l.map g) := by
  intro l
  induction l with
  | nil => intro _; rfl
  | cons a t ih =>
    intro h
    have ha := h a (List.mem_cons_self a t)
    simp only [mapE, ha, ih (fun b hb => h b (List.mem_cons_of_mem a hb)), List.map_cons]

theorem mapE_ok_forall {α β : Type} {f : α → Except String β} :
    ∀ {l : List α} {res : List β}, mapE f l = .ok res → ∀ x ∈ l, ∃ b, f x = .ok b := by
  intro l
  induction l with
  | nil => intro res _ x hx; cases hx
  | cons a t ih =>
    intro res h x hx
    simp only [mapE] at h
    cases hfa : f a with
    | error e => rw [hfa] at h; cases h
    | ok b =>
      rw [hfa] at h
      cases hmt : mapE f t with
      | error e => rw [hmt] at h; cases h
      | ok bs =>
        rw [hmt] at h
        rcases List.mem_cons.mp hx with rfl | hx2
        · exact ⟨b, hfa⟩
        · exact ih hmt x hx2

theorem mapE_get {α β : Type} {f : α → Except String β} (da : α) (db : β) :
    ∀ {l : List α} {res : List β}, mapE f l = .ok res →
      res.length = l.length ∧ ∀ i, i < l.length → f (l.getD i da) = .ok (res.getD i db) := by
  intro l
  induction l with
  | nil =>
    intro res h
    cases h
    exact ⟨rfl, fun i hi => absurd hi (Nat.not_lt_zero i)⟩
  | cons a t ih =>
    intro res h
    simp only [mapE] at h
    cases hfa : f a with
    | error e => rw [hfa] at h; cases h
    | ok b =>
      rw [hfa] at h
      cases hmt : mapE f t with
      | error e => rw [hmt] at h; cases h
      | ok bs =>
        rw [hmt] at h
        cases h
        obtain ⟨hlen, hget⟩ := ih hmt
        refine ⟨by simp [hlen], ?_⟩
        intro i hi
        cases i with
        | zero => simpa using hfa
        | succ n =>
          simp only [List.getD_cons_succ]
          exact hget n (Nat.lt_of_succ_lt_succ hi)

theorem processImage_ok {imgs : Nat → Option ImgMeta} {attm : AnnToMask} {anns : List Ann}
    {out : String} {k : Nat} {ev : SaveEvent}
    (h : processImage imgs attm anns out k = .ok ev) :
    ∃ a t img, imgGroup anns k = a :: t ∧ imgs a.image_id = some img ∧
      buildMask attm (a :: t) = .ok ev.MASK ∧
      ev.path = pyJoin out (img.file_name.dropRight 4 ++ ".png") ∧
      ev.height = img.height ∧ ev.width = img.width := by
  unfold processImage at h
  split at h
  · cases h
  · rename_i a t heq
    split at h
    · cases h
    · rename_i img himg
      split at h
      · cases h
      · rename_i M hM
        cases h
        exact ⟨a, t, img, heq, himg, hM, rfl, rfl, rfl⟩

theorem foldE_append_error {attm : AnnToMask} {cov : Ann → Coverage} {a : Ann} {e : String}
    (hbad : attm a = .error e) :
    ∀ (g1 : List Ann), (∀ b ∈ g1, attm b = .ok (cov b)) →
      ∀ (M0 : Mask) (g2 : List Ann),
        foldE (annStep attm) M0 (g1 ++ a :: g2) = .error e := by
  intro g1
  induction g1 with
  | nil =>
    intro _ M0 g2
    simp only [List.nil_append, foldE, annStep, hbad]
  | cons b t ih =>
    intro h M0 g2
    have hb := h b (List.mem_cons_self b t)
    simp only [List.cons_append, foldE, annStep, hb]
    exact ih (fun c hc => h c (List.mem_cons_of_mem b hc)) _ g2

/-- C7 (amended): a malformed annotation is not skipped: the exception
raised by annToMask on the first bad annotation of an image propagates
out of the mask fold, no mask is produced for that image, the
remaining annotations are not processed, and the whole conversion
command aborts instead of continuing. -/
theorem c7_malformed_geometry_aborts
    (attm : AnnToMask) (cov : Ann → Coverage) (g1 : List Ann) (a : Ann) (g2 : List Ann)
    (e : String)
    (hok : ∀ b ∈ g1, attm b = .ok (cov b)) (hbad : attm a = .error e) :
    buildMask attm (g1 ++ a :: g2) = .error e ∧
    ∀ imgs out k ap ds ip ks evs, ds.hasInstances = true →
      imgGroup ds.instances k = g1 ++ a :: g2 → k ∈ ks →
      convertOne imgs attm ap ds out ip ks ≠ .ok evs := by
  have h1 : buildMask attm (g1 ++ a :: g2) = .error e :=
    foldE_append_error hbad g1 hok zeroMask g2
  refine ⟨h1, ?_⟩
  intro imgs out k ap ds ip ks evs hds hgr hk hrun
  simp only [convertOne, hds, if_true] at hrun
  obtain ⟨b, hb⟩ := mapE_ok_forall hrun k hk
  obtain ⟨a0, t0, img, heq, _, hbm, _⟩ := processImage_ok hb
  rw [hgr] at heq
  rw [← heq, h1] at hbm
  cases hbm

def cov7 : Ann → Coverage := fun _ => fun _ _ => 1

def attm7 : AnnToMask :=
  fun a => if a.ann_id = 2 then .error "ValueError: malformed polygon" else .ok (cov7 a)

def ann7good : Ann := ⟨1, 3, 1⟩

def ann7bad : Ann := ⟨1, 5, 2⟩

def imgs7 : Nat → Option ImgMeta := fun _ => some ⟨2, 2, "a.jpg"⟩

def ds7 : CocoDataset := ⟨true, false, [ann7good, ann7bad]⟩

/-- C7 witness: one good annotation followed by one whose annToMask
raises; the image's mask fold raises that error. -/
theorem c7_witness :
    buildMask attm7 [ann7good, ann7bad] = .error "ValueError: malformed polygon" := by
  have h := c7_malformed_geometry_aborts attm7 cov7 [ann7good] ann7bad []
    "ValueError: malformed polygon"
    (by intro b hb
        rcases List.mem_cons.mp hb with rfl | h2
        · rfl
        · cases h2)
    rfl
  exact h.1

/-- C7 counterexample: with annotations [good, malformed] on one image,
the run neither reports-and-skips nor processes the rest: it aborts
with the annToMask exception and writes zero mask files, so the claim
that processing continues past a malformed annotation fails. -/
theorem c7_counterexample :
    convertOne imgs7 attm7 [] ds7 "out" "ip" [1] = .error "ValueError: malformed polygon" ∧
    numSaved (convertOne imgs7 attm7 [] ds7 "out" "ip" [1]) = 0 :=
  ⟨rfl, rfl⟩

/-- C8 (amended): an annotation group whose image identifier has no
image metadata is not dropped-with-a-diagnostic: the lookup failure
aborts the per-image step and with it the whole conversion command. -/
theorem c8_missing_metadata_aborts
    (imgs : Nat → Option ImgMeta) (attm : AnnToMask) (anns : List Ann) (out : String)
    (k : Nat) (a : Ann) (t : List Ann)
    (hgroup : imgGroup anns k = a :: t) (hmeta : imgs a.image_id = none) :
    (∀ ev, processImage imgs attm anns out k ≠ .ok ev) ∧
    ∀ ap ds ip ks evs, ds.hasInstances = true → ds.instances = anns → k ∈ ks →
      convertOne imgs attm ap ds out ip ks ≠ .ok evs := by
  have h1 : ∀ ev, processImage imgs attm anns out k ≠ .ok ev := by
    intro ev hok
    obtain ⟨a0, t0, img, heq, himg, _⟩ := processImage_ok hok
    rw [hgroup] at heq
    injection heq with he1 he2
    rw [← he1, hmeta] at himg
    cases himg
  refine ⟨h1, ?_⟩
  intro ap ds ip ks evs hds hanns hk hrun
  simp only [convertOne, hds, if_true] at hrun
  obtain ⟨b, hb⟩ := mapE_ok_forall hrun k hk
  rw [hanns] at hb
  exact h1 b hb

def imgs8 : Nat → Option ImgMeta := fun _ => none

def attm8 : AnnToMask := fun _ => .ok (fun _ _ => 1)

def anns8 : List Ann := [⟨1, 5, 1⟩]

def ds8 : CocoDataset := ⟨true, false, anns8⟩

/-- C8 witness: with no metadata for image id 1, the per-image step
cannot return normally. -/
theorem c8_witness : processImage imgs8 attm8 anns8 "out" 1 ≠ .ok dfltEvent :=
  (c8_missing_metadata_aborts imgs8 attm8 anns8 "out" 1 ⟨1, 5, 1⟩ [] rfl rfl).1 dfltEvent

/-- C8 counterexample: an annotation with image id 1 and no metadata
for id 1 makes the run raise KeyError and write zero mask files,
instead of dropping the annotation with a diagnostic and continuing. -/
theorem c8_counterexample :
    convertOne imgs8 attm8 [] ds8 "out" "ip" [1] = .error "KeyError: image id not in imgs" ∧
    numSaved (convertOne imgs8 attm8 [] ds8 "out" "ip" [1]) = 0 :=
  ⟨rfl, rfl⟩

/-- Paths of the mask files saved by a run, in save order (empty when
the run raised). -/
def savedNames (r : Except String (List SaveEvent)) : List String :=
  match r with
  | .ok evs => evs.map (fun e => e.path)
  | .error _ => []

/-- C9 (amended): per processed image key the command persists exactly
one mask file into the output directory; its name is the source
image's file name with the last four characters dropped and '.png'
appended (which replaces the extension only for names ending in a
four-character suffix such as '.jpg'), its dimensions are the image's
stated height and width, and its pixel content is the label array the
mask fold computed. -/
theorem c9_one_mask_file_per_image
    (imgs : Nat → Option ImgMeta) (attm : AnnToMask) (ap : List String)
    (ds : CocoDataset) (out ip : String) (ks : List Nat) (evs : List SaveEvent)
    (hds : ds.hasInstances = true)
    (hrun : convertOne imgs attm ap ds out ip ks = .ok evs) :
    evs.length = ks.length ∧
    ∀ i, i < ks.length → ∃ a t img,
      imgGroup ds.instances (ks.getD i 0) = a :: t ∧
      imgs a.image_id = some img ∧
      (evs.getD i dfltEvent).path = pyJoin out (img.file_name.dropRight 4 ++ ".png") ∧
      (evs.getD i dfltEvent).height = img.height ∧
      (evs.getD i dfltEvent).width = img.width ∧
      buildMask attm (a :: t) = .ok (evs.getD i dfltEvent).MASK := by
  simp only [convertOne, hds, if_true] at hrun
  obtain ⟨hlen, hget⟩ := mapE_get 0 dfltEvent hrun
  refine ⟨hlen, ?_⟩
  intro i hi
  obtain ⟨a, t, img, heq, himg, hbm, hpath, hh, hw⟩ := processImage_ok (hget i hi)
  exact ⟨a, t, img, heq, himg, hpath, hh, hw, hbm⟩

def imgs9w : Nat → Option ImgMeta := fun _ => some ⟨2, 2, "a.jpg"⟩

def attm9w : AnnToMask := fun _ => .ok (fun _ _ => 1)

def anns9w : List Ann := [⟨1, 5, 1⟩]

def ds9w : CocoDataset := ⟨true, false, anns9w⟩

/-- C9 witness: one image with one annotation yields exactly one saved
mask file. -/
theorem c9_witness : numSaved (convertOne imgs9w attm9w [] ds9w "out" "ip" [1]) = 1 := by
  have h := c9_one_mask_file_per_image imgs9w attm9w [] ds9w "out" "ip" [1] _ rfl rfl
  exact h.1

def imgs9c : Nat → Option ImgMeta := fun _ => some ⟨2, 2, "img.jpeg"⟩

def attm9c : AnnToMask := fun _ => .ok (fun _ _ => 1)

def anns9c : List Ann := [⟨1, 5, 1⟩]

def ds9c : CocoDataset := ⟨true, false, anns9c⟩

/-- C9 counterexample: for a source image named 'img.jpeg' the saved
mask is 'out/img..png', not 'out/img.png': the code drops the last
four characters of the name rather than replacing the extension. -/
theorem c9_counterexample :
    savedNames (convertOne imgs9c attm9c [] ds9c "out" "ip" [1]) = ["out/img..png"] ∧
    ("out/img..png" : String) ≠ "out/img.png" := by
  constructor
  · rfl
  · decide

/-- Admissible enumeration of the keys of the imgToAnns dict: Python 2
guarantees only that dict.keys() lists each key exactly once, in an
unspecified order. -/
def admissibleKeys (anns : List Ann) (ks : List Nat) : Prop :=
  ks.Nodup ∧ ∀ i, i ∈ ks ↔ i ∈ anns.map (fun a => a.image_id)

/-- The saved file a run left under path n: first save event with that
path (none when the run raised or never saved it). -/
def findSaved (n : String) (r : Except String (List SaveEvent)) : Option SaveEvent :=
  match r with
  | .ok evs => evs.find? (fun e => decide (e.path = n))
  | .error _ => none

theorem find_key_perm {α β : Type} [DecidableEq β] (f : α → β) (b : β) :
    ∀ {l1 l2 : List α}, l1.Perm l2 → (l1.map f).Nodup →
      l1.find? (fun e => decide (f e = b)) = l2.find? (fun e => decide (f e = b)) := by
  intro l1 l2 hp
  induction hp with
  | nil => intro _; rfl
  | cons x hp ih =>
    intro hnd
    rw [List.map_cons, List.nodup_cons] at hnd
    by_cases hx : f x = b
    · rw [List.find?_cons_of_pos _ (by simpa using hx),
        List.find?_cons_of_pos _ (by simpa using hx)]
    · rw [List.find?_cons_of_neg _ (by simpa using hx),
        List.find?_cons_of_neg _ (by simpa using hx)]
      exact ih hnd.2
  | swap x y l =>
    intro hnd
    rw [List.map_cons, List.map_cons, List.nodup_cons] at hnd
    have hne : f y ≠ f x := fun h => hnd.1 (by rw [h]; exact List.mem_cons_self _ _)
    by_cases hy : f y = b <;> by_cases hx : f x = b
    · exact absurd (hy.trans hx.symm) hne
    · have e1 : List.find? (fun e => decide (f e = b)) (y :: x :: l) = some y :=
        List.find?_cons_of_pos _ (by simpa using hy)
      have e2 : List.find? (fun e => decide (f e = b)) (x :: y :: l) = some y := by
        rw [List.find?_cons_of_neg _ (by simpa using hx)]
        exact List.find?_cons_of_pos _ (by simpa using hy)
      rw [e1, e2]
    · have e1 : List.find? (fun e => decide (f e = b)) (y :: x :: l) = some x := by
        rw [List.find?_cons_of_neg _ (by simpa using hy)]
        exact List.find?_cons_of_pos _ (by simpa using hx)
      have e2 : List.find? (fun e => decide (f e = b)) (x :: y :: l) = some x :=
        List.find?_cons_of_pos _ (by simpa using hx)
      rw [e1, e2]
    · have e1 : List.find? (fun e => decide (f e = b)) (y :: x :: l) =
          List.find? (fun e => decide (f e = b)) l := by
        rw [List.find?_cons_of_neg _ (by simpa using hy),
          List.find?_cons_of_neg _ (by simpa using hx)]
      have e2 : List.find? (fun e => decide (f e = b)) (x :: y :: l) =
          List.find? (fun e => decide (f e = b)) l := by
        rw [List.find?_cons_of_neg _ (by simpa using hx),
          List.find?_cons_of_neg _ (by simpa using hy)]
      rw [e1, e2]
  | trans hp1 _ ih1 ih2 =>
    intro hnd
    exact (ih1 hnd).trans (ih2 ((hp1.map f).nodup_iff.mp hnd))

/-- C4 (amended): the command iterates images in the unspecified order
of the dict's key list, so the processing order is not a function of
the input; but when every image id maps to a save event and the saved
file names are pairwise distinct, the on-disk outcome (which file
holds which mask) is identical for every admissible key enumeration,
so two runs over the same input produce identical output files even
though the order in which they are written may differ. -/
theorem c4_output_independent_of_key_order
    (imgs : Nat → Option ImgMeta) (attm : AnnToMask) (ap : List String)
    (ds : CocoDataset) (out ip : String) (ks1 ks2 : List Nat) (ev : Nat → SaveEvent)
    (hds : ds.hasInstances = true)
    (h1 : admissibleKeys ds.instances ks1) (h2 : admissibleKeys ds.instances ks2)
    (hev : ∀ k ∈ ks1, processImage imgs attm ds.instances out k = .ok (ev k))
    (hinj : ∀ x ∈ ks1, ∀ y ∈ ks1, (ev x).path = (ev y).path → x = y) :
    ∀ n, findSaved n (convertOne imgs attm ap ds out ip ks1) =
         findSaved n (convertOne imgs attm ap ds out ip ks2) := by
  have hperm : ks1.Perm ks2 :=
    (List.perm_ext_iff_of_nodup h1.1 h2.1).mpr (fun i => (h1.2 i).trans (h2.2 i).symm)
  have hev2 : ∀ k ∈ ks2, processImage imgs attm ds.instances out k = .ok (ev k) :=
    fun k hk => hev k (hperm.symm.subset hk)
  have hr1 : convertOne imgs attm ap ds out ip ks1 = .ok (ks1.map ev) := by
    simp only [convertOne, hds, if_true]
    exact mapE_ok_of_forall hev
  have hr2 : convertOne imgs attm ap ds out ip ks2 = .ok (ks2.map ev) := by
    simp only [convertOne, hds, if_true]
    exact mapE_ok_of_forall hev2
  intro n
  rw [hr1, hr2]
  have hnd : ((ks1.map ev).map (fun e => e.path)).Nodup := by
    rw [List.map_map]
    exact List.Nodup.map_on (fun x hx y hy hxy => hinj x hx y hy hxy) h1.1
  exact find_key_perm (fun e => e.path) n (hperm.map ev) hnd

def imgs4 : Nat → Option ImgMeta :=
  fun k => if k = 1 then some ⟨2, 2, "a.jpg"⟩ else if k = 2 then some ⟨2, 2, "b.jpg"⟩ else none

def attm4 : AnnToMask := fun _ => .ok (fun _ _ => 1)

def anns4 : List Ann := [⟨1, 5, 1⟩, ⟨2, 6, 2⟩]

def ds4 : CocoDataset := ⟨true, false, anns4⟩

def ev4 : Nat → SaveEvent :=
  fun k =>
    match processImage imgs4 attm4 anns4 "out" k with
    | .ok e => e
    | .error _ => dfltEvent

/-- C4 witness: for the two admissible key orders [1, 2] and [2, 1] of
a two-image input, the file saved under 'out/a.png' is the same. -/
theorem c4_witness :
    findSaved "out/a.png" (convertOne imgs4 attm4 [] ds4 "out" "ip" [1, 2]) =
    findSaved "out/a.png" (convertOne imgs4 attm4 [] ds4 "out" "ip" [2, 1]) := by
  have hadm1 : admissibleKeys anns4 [1, 2] := ⟨by decide, fun i => Iff.rfl⟩
  have hadm2 : admissibleKeys anns4 [2, 1] := by
    refine ⟨by decide, fun i => ?_⟩
    show i ∈ [2, 1] ↔ i ∈ [1, 2]
    constructor <;> intro h <;> fin_cases h <;> decide
  have hev : ∀ k ∈ [1, 2], processImage imgs4 attm4 anns4 "out" k = .ok (ev4 k) := by
    intro k hk
    rcases List.mem_cons.mp hk with rfl | h2
    · rfl
    · rcases List.mem_cons.mp h2 with rfl | h3
      · rfl
      · cases h3
  have hinj : ∀ x ∈ [1, 2], ∀ y ∈ [1, 2], (ev4 x).path = (ev4 y).path → x = y := by decide
  exact c4_output_independent_of_key_order imgs4 attm4 [] ds4 "out" "ip" [1, 2] [2, 1] ev4
    rfl hadm1 hadm2 hev hinj "out/a.png"

def imgs4c : Nat → Option ImgMeta :=
  fun k => if k = 1 then some ⟨2, 2, "a.jpg"⟩ else if k = 2 then some ⟨2, 2, "b.jpg"⟩ else none

def attm4c : AnnToMask := fun _ => .ok (fun _ _ => 1)

def anns4c : List Ann := [⟨1, 5, 1⟩, ⟨2, 6, 2⟩]

def ds4c : CocoDataset := ⟨true, false, anns4c⟩

/-- C4 counterexample: [1, 2] and [2, 1] are both admissible key
enumerations of the same two-image input (each lists the dict keys 1
and 2 exactly once), yet the runs save the mask files in different
orders: the processing order is the dict's key order, which the input
does not determine, not a stable sorted order. -/
theorem c4_counterexample :
    savedNames (convertOne imgs4c attm4c [] ds4c "out" "ip" [1, 2]) = ["out/a.png", "out/b.png"] ∧
    savedNames (convertOne imgs4c attm4c [] ds4c "out" "ip" [2, 1]) = ["out/b.png", "out/a.png"] ∧
    savedNames (convertOne imgs4c attm4c [] ds4c "out" "ip" [1, 2]) ≠
      savedNames (convertOne imgs4c attm4c [] ds4c "out" "ip" [2, 1]) := by
  refine ⟨rfl, rfl, by decide⟩

/-- Python str.endswith, on the underlying character lists. -/
def strEndsWith (s suff : String) : Bool := suff.data.isSuffixOf s.data

/-- Line 151: the '.jpg'-filtered listing of the image directory, each
entry joined onto the directory, in listing order. -/
def imgListOf (img_dir : String) (listing : List String) : List String :=
  (listing.filter (fun f => strEndsWith f ".jpg")).map (fun f => pyJoin img_dir f)

/-- Line 152: the '.png'-filtered listing of the mask directory. -/
def maskListOf (mask_dir : String) (listing : List String) : List String :=
  (listing.filter (fun f => strEndsWith f ".png")).map (fun f => pyJoin mask_dir f)

/-- Line 153: filename_pairs = zip(img_list, mask_list), a positional
zip of the two filtered directory listings (listdir models
os.listdir, whose order the filesystem determines). -/
def filenamePairs (listdir : String → List String) (img_dir mask_dir : String) :
    List (String × String) :=
  (imgListOf img_dir (listdir img_dir)).zip (maskListOf mask_dir (listdir mask_dir))

/-- A raster image as loaded for encoding: dimensions, channel count
and raw pixel bytes in row-major order. -/
structure RawImage where
  height : Nat
  width : Nat
  channels : Nat
  bytes : List Nat
deriving DecidableEq

/-- Modelled from the spec: fixed-width little-endian encoding of an
integer into k bytes, the 'fixed, explicit byte width' of section 4.2
(the source of the record encoder, tf_image_segmentation/utils/
tf_records.py, is not part of this tree). -/
def natLE : Nat → Nat → List Nat
  | 0, _ => []
  | k + 1, n => n % 256 :: natLE k (n / 256)

/-- Modelled from the spec: little-endian read-back of natLE. -/
def fromLE : List Nat → Nat
  | [] => 0
  | b :: bs => b + 256 * fromLE bs

/-- Modelled from the spec: one serialized record of section 4.2 -
height, width, image channel depth, mask channel depth, each as a
fixed 8-byte integer, followed by the raw image bytes and the raw mask
bytes with no compression. -/
def encodePair (img mask : RawImage) : List Nat :=
  natLE 8 img.height ++ (natLE 8 img.width ++ (natLE 8 img.channels ++
    (natLE 8 mask.channels ++ (img.bytes ++ mask.bytes))))

/-- Modelled from the spec: the inverse decode - read the four
header integers, then split the payload using only height, width and
the channel fields embedded in the record. -/
def decodePair (bs : List Nat) : Option (Nat × Nat × Nat × Nat × List Nat × List Nat) :=
  let h := fromLE (bs.take 8)
  let r1 := bs.drop 8
  let w := fromLE (r1.take 8)
  let r2 := r1.drop 8
  let ci := fromLE (r2.take 8)
  let r3 := r2.drop 8
  let cm := fromLE (r3.take 8)
  let r4 := r3.drop 8
  if bs.length = 32 + (h * w * ci + h * w * cm) then
    some (h, w, ci, cm, r4.take (h * w * ci), r4.drop (h * w * ci))
  else
    none

/-- Modelled from the spec: write_image_annotation_pairs_to_tfrecord
(its source file is not part of this tree) - load each pair, validate
that image and mask share height and width (mismatch aborts the whole
encode), and append one serialized record per pair in input order. -/
def write_image_annotation_pairs_to_tfrecord (loadImg loadMask : String → RawImage)
    (filename_pairs : List (String × String)) : Except String (List (List Nat)) :=
  mapE (fun pr =>
    if (loadImg pr.1).height = (loadMask pr.2).height ∧
        (loadImg pr.1).width = (loadMask pr.2).width then
      .ok (encodePair (loadImg pr.1) (loadMask pr.2))
    else
      .error ("shape mismatch between " ++ pr.1 ++ " and " ++ pr.2)) filename_pairs

/-- Lines 145-157: for each (tfrecords_filename, img_dir, mask_dir)
triple, form the positional pairs and hand them to the record
encoder. -/
def coco_segmentation_to_tfrecord (listdir : String → List String)
    (loadImg loadMask : String → RawImage)
    (tfrecord_filenames image_dirs seg_mask_output_paths : List String) :
    Except String (List (String × List (List Nat))) :=
  mapE (fun trip =>
    match write_image_annotation_pairs_to_tfrecord loadImg loadMask
        (filenamePairs listdir trip.2.1 trip.2.2) with
    | .error e => .error e
    | .ok recs => .ok (trip.1, recs))
    (pyZip3 tfrecord_filenames image_dirs seg_mask_output_paths)

/-- Characters after the last '/' of a path. -/
def afterLastSlash (cs : List Char) : List Char :=
  cs.foldl (fun acc c => if c = '/' then [] else acc ++ [c]) []

/-- File stem in the sense of the spec's data model: base name with
the 4-character extension removed. -/
def stemOf (p : String) : String :=
  String.mk ((afterLastSlash p.data).take ((afterLastSlash p.data).length - 4))

/-- Matching-stems pairing invariant stated by the spec. -/
def stemsMatch (pr : String × String) : Prop := stemOf pr.1 = stemOf pr.2

/-- C5 (amended): the pairs handed to the record encoder are formed by
positionally zipping the '.jpg'-filtered image-directory listing with
the '.png'-filtered mask-directory listing (truncating to the
shorter); matching file stems are not checked.  When every zipped pair
has matching shapes, the encoder emits exactly one serialized record
per pair, in input order. -/
theorem c5_positional_pairs_one_record_each
    (loadImg loadMask : String → RawImage) (listdir : String → List String)
    (img_dir mask_dir : String)
    (hshape : ∀ pr ∈ filenamePairs listdir img_dir mask_dir,
      (loadImg pr.1).height = (loadMask pr.2).height ∧
      (loadImg pr.1).width = (loadMask pr.2).width) :
    write_image_annotation_pairs_to_tfrecord loadImg loadMask
        (filenamePairs listdir img_dir mask_dir) =
      .ok ((filenamePairs listdir img_dir mask_dir).map
        (fun pr => encodePair (loadImg pr.1) (loadMask pr.2))) := by
  apply mapE_ok_of_forall
  intro pr hpr
  exact if_pos (hshape pr hpr)

def listdir5w : String → List String :=
  fun d => if d = "imgs" then ["a.jpg", "b.jpg"] else if d = "masks" then ["a.png", "b.png"] else []

def loadImg5w : String → RawImage := fun _ => ⟨2, 3, 3, [0, 0, 0]⟩

def loadMask5w : String → RawImage := fun _ => ⟨2, 3, 1, [0]⟩

/-- C5 witness: two images and two masks with matching shapes produce
one record per zipped pair, in order. -/
theorem c5_witness :
    write_image_annotation_pairs_to_tfrecord loadImg5w loadMask5w
        (filenamePairs listdir5w "imgs" "masks") =
      .ok ((filenamePairs listdir5w "imgs" "masks").map
        (fun pr => encodePair (loadImg5w pr.1) (loadMask5w pr.2))) :=
  c5_positional_pairs_one_record_each loadImg5w loadMask5w listdir5w "imgs" "masks"
    (fun _ _ => ⟨rfl, rfl⟩)

def listdir5c : String → List String :=
  fun d => if d = "imgs" then ["b.jpg", "a.jpg"] else if d = "masks" then ["a.png", "b.png"] else []

/-- C5 counterexample: with directory listings ['b.jpg', 'a.jpg'] and
['a.png', 'b.png'] (both legal os.listdir orders for the same files)
the first pair handed to the encoder is ('imgs/b.jpg', 'masks/a.png'),
whose stems 'b' and 'a' differ: the code never matches stems, it zips
the two listings positionally. -/
theorem c5_counterexample :
    filenamePairs listdir5c "imgs" "masks" =
      [("imgs/b.jpg", "masks/a.png"), ("imgs/a.jpg", "masks/b.png")] ∧
    ¬ stemsMatch ("imgs/b.jpg", "masks/a.png") := by
  constructor
  · rfl
  · show ¬ stemOf "imgs/b.jpg" = stemOf "masks/a.png"
    decide

/-- Well-formedness of an image/mask pair for encoding: integer fields
fit the fixed 8-byte width and the byte payloads have the row-major
sizes implied by the header. -/
def wfPair (img mask : RawImage) : Prop :=
  img.height < 256 ^ 8 ∧ img.width < 256 ^ 8 ∧ img.channels < 256 ^ 8 ∧
  mask.channels < 256 ^ 8 ∧
  img.bytes.length = img.height * img.width * img.channels ∧
  mask.bytes.length = img.height * img.width * mask.channels

theorem natLE_length : ∀ (k n : Nat), (natLE k n).length = k := by
  intro k
  induction k with
  | zero => intro n; rfl
  | succ m ih => intro n; simp [natLE, ih]

theorem fromLE_natLE : ∀ (k n : Nat), fromLE (natLE k n) = n % 256 ^ k := by
  intro k
  induction k with
  | zero => intro n; simp [natLE, fromLE, Nat.mod_one]
  | succ m ih =>
    intro n
    rw [pow_succ']
    rw [Nat.mod_mul]
    simp only [natLE, fromLE, ih]

/-- C6: spec-modelled round-trip law - decoding an encoded image/mask
pair returns exactly the input's height, width, both channel counts
and both raw byte payloads. -/
theorem c6_encode_decode_roundtrip (img mask : RawImage) (hwf : wfPair img mask) :
    decodePair (encodePair img mask) =
      some (img.height, img.width, img.channels, mask.channels, img.bytes, mask.bytes) := by
  obtain ⟨hh, hw, hc, hm, hbi, hbm⟩ := hwf
  simp only [encodePair, decodePair]
  rw [List.take_left' (natLE_length 8 img.height), List.drop_left' (natLE_length 8 img.height)]
  rw [List.take_left' (natLE_length 8 img.width), List.drop_left' (natLE_length 8 img.width)]
  rw [List.take_left' (natLE_length 8 img.channels), List.drop_left' (natLE_length 8 img.channels)]
  rw [List.take_left' (natLE_length 8 mask.channels), List.drop_left' (natLE_length 8 mask.channels)]
  rw [fromLE_natLE, fromLE_natLE, fromLE_natLE, fromLE_natLE]
  rw [Nat.mod_eq_of_lt hh, Nat.mod_eq_of_lt hw, Nat.mod_eq_of_lt hc, Nat.mod_eq_of_lt hm]
  have hcond : (natLE 8 img.height ++ (natLE 8 img.width ++ (natLE 8 img.channels ++
      (natLE 8 mask.channels ++ (img.bytes ++ mask.bytes))))).length =
      32 + (img.height * img.width * img.channels + img.height * img.width * mask.channels) := by
    simp only [List.length_append, natLE_length, hbi, hbm]
    omega
  rw [if_pos hcond]
  rw [← hbi, List.take_left, List.drop_left]

def img6w : RawImage := ⟨1, 1, 3, [10, 20, 30]⟩

def mask6w : RawImage := ⟨1, 1, 1, [7]⟩

/-- C6 witness: a concrete 1 x 1 pair round-trips to exactly its
input fields. -/
theorem c6_witness :
    decodePair (encodePair img6w mask6w) = some (1, 1, 3, 1, [10, 20, 30], [7]) :=
  c6_encode_decode_roundtrip img6w mask6w
    ⟨by decide, by decide, by decide, by decide, rfl, rfl⟩

end DataCoco
